import Mathlib

/-!
Verification of the e-mail pipeline in `src/main.py`.

The development shallowly embeds the pure core of the program:

* `parse_and_format_date`  — the date normalizer (`parse_and_format_date`),
  with the standard-library pieces (`parsedate_tz`/`mktime_tz`,
  `datetime.fromtimestamp`, `strftime`) abstracted into a `DateBackend`;
* `parse_s3_eml`           — the MIME walk that extracts headers, bodies and
  attachments from a parsed message tree;
* `process_single_email`   — the per-key worker;
* `process_emails_parallel`, `progressEvents` — the fan-out loop, modelled on
  the list of task results in completion order;
* `sortEmailsByDate`       — the final `list.sort(key=..., reverse=True)`.

Machine-level conventions: Python `bytes` are `List Nat` (each entry < 256 in
any real input); Python `datetime` instants are `Nat`, order-isomorphically,
with `0` standing for `datetime.min` (the smallest representable instant);
raising code is embedded with `Except Unit`/`Option`.
-/

/-- Python byte strings. -/
abbrev Bytes := List Nat

/-- The character set declared by a MIME part, as far as the program can
observe it through `part.get_content()`: a known single-byte charset decodes,
an unknown one makes `get_content` raise `LookupError`.  `usAscii` and
`latin1` are enough to express every behaviour the claims touch. -/
inductive Charset where
  | usAscii
  | latin1
  | unknownCs
deriving DecidableEq

/-- U+FFFD, produced by Python's `errors='replace'` text decoding. -/
def replacementChar : Char := Char.ofNat 0xFFFD

/-- Text decoding as performed by `email`'s content manager
(`payload.decode(charset, errors='replace')`): ASCII replaces high bytes with
U+FFFD, latin-1 maps every byte to the code point of the same value, an
unknown charset raises. -/
def decodeCharset : Charset → Bytes → Except Unit String
  | .usAscii, bs => .ok ⟨bs.map (fun b => if b < 128 then Char.ofNat b else replacementChar)⟩
  | .latin1, bs => .ok ⟨bs.map (fun b => Char.ofNat b)⟩
  | .unknownCs, _ => .error ()

/-- UTF-8 encoding of one scalar value, the encoding used by Python's
`str.encode()` with no arguments. -/
def utf8Encode (c : Char) : Bytes :=
  let n := c.toNat
  if n < 0x80 then [n]
  else if n < 0x800 then
    [0xC0 ||| (n >>> 6), 0x80 ||| (n &&& 0x3F)]
  else if n < 0x10000 then
    [0xE0 ||| (n >>> 12), 0x80 ||| ((n >>> 6) &&& 0x3F), 0x80 ||| (n &&& 0x3F)]
  else
    [0xF0 ||| (n >>> 18), 0x80 ||| ((n >>> 12) &&& 0x3F),
     0x80 ||| ((n >>> 6) &&& 0x3F), 0x80 ||| (n &&& 0x3F)]

/-- `s.encode()`: UTF-8 bytes of a Python `str`. -/
def strEncode (s : String) : Bytes :=
  s.data.foldr (fun c acc => utf8Encode c ++ acc) []

/-- What `part.get_content()` returns: a `str` for `text/*` parts, `bytes`
otherwise. -/
inductive PyContent where
  | str (s : String)
  | bytes (b : Bytes)
deriving DecidableEq

mutual
/-- One structural MIME part: its declared content type
(`part.get_content_type()`), the full `Content-Disposition` header value
(`str(part.get('Content-Disposition', ''))`), the filename parameter
(`part.get_filename()`, `none` when absent), its declared charset, its
transfer-decoded payload bytes, and its subparts (a `MimeForest`, empty for
leaves). -/
inductive MimePart where
  | mk (content_type : String) (content_disposition : String)
       (filename : Option String) (charset : Charset)
       (payload : Bytes) (subparts : MimeForest)
/-- A sequence of sibling parts. -/
inductive MimeForest where
  | nil
  | cons (p : MimePart) (ps : MimeForest)
end

def MimePart.content_type : MimePart → String
  | .mk ct _ _ _ _ _ => ct

def MimePart.content_disposition : MimePart → String
  | .mk _ cd _ _ _ _ => cd

def MimePart.filename : MimePart → Option String
  | .mk _ _ fn _ _ _ => fn

def MimePart.charset : MimePart → Charset
  | .mk _ _ _ cs _ _ => cs

def MimePart.payload : MimePart → Bytes
  | .mk _ _ _ _ pl _ => pl

def MimePart.subparts : MimePart → MimeForest
  | .mk _ _ _ _ _ subs => subs

/-- Build a forest from a list of sibling parts. -/
def MimeForest.ofList : List MimePart → MimeForest
  | [] => .nil
  | p :: ps => .cons p (MimeForest.ofList ps)

/-- `pre.isPrefixOf s` on the underlying characters; kernel-friendly stand-in
for `String.startsWith`. -/
def strStartsWith (s pre : String) : Bool :=
  pre.data.isPrefixOf s.data

/-- Python's `needle in hay` substring test. -/
def substrIn (needle hay : String) : Bool :=
  hay.data.tails.any (fun t => needle.data.isPrefixOf t)

/-- `part.get_content()`.  Multipart containers have no content manager and
raise; `text/*` parts decode their payload to a `str` using their charset
(raising for an unknown charset); every other part yields its payload
`bytes`. -/
def MimePart.get_content (p : MimePart) : Except Unit PyContent :=
  if strStartsWith p.content_type "multipart/" then .error ()
  else if strStartsWith p.content_type "text/" then
    (decodeCharset p.charset p.payload).map PyContent.str
  else .ok (.bytes p.payload)

mutual
/-- `msg.walk()`: the part itself, then every nested part in document
order. -/
def MimePart.walk : MimePart → List MimePart
  | .mk ct cd fn cs pl subs => .mk ct cd fn cs pl subs :: MimeForest.walkF subs
/-- The concatenated walks of a forest of siblings. -/
def MimeForest.walkF : MimeForest → List MimePart
  | .nil => []
  | .cons p ps => p.walk ++ MimeForest.walkF ps
end

/-- Truthiness of `part.get_filename()`: `None` and the empty string are
falsy. -/
def pyTruthyFilename : Option String → Bool
  | none => false
  | some s => !(s == "")

/-- Branch test `content_type == 'text/plain' and 'attachment' not in
content_disposition` of the walk loop. -/
def isPlainBody (p : MimePart) : Bool :=
  (p.content_type == "text/plain") && !(substrIn "attachment" p.content_disposition)

/-- Branch test `content_type == 'text/html' and 'attachment' not in
content_disposition` of the walk loop. -/
def isHtmlBody (p : MimePart) : Bool :=
  (p.content_type == "text/html") && !(substrIn "attachment" p.content_disposition)

/-- Branch test `'attachment' in content_disposition or part.get_filename()`
of the walk loop. -/
def isAttachCand (p : MimePart) : Bool :=
  substrIn "attachment" p.content_disposition || pyTruthyFilename p.filename

/-- One attachment record, as appended by the walk loop. -/
structure Attachment where
  filename : String
  content : Bytes
  content_type : String
deriving DecidableEq

/-- `if isinstance(content, str): content = content.encode()`. -/
def contentBytes : PyContent → Bytes
  | .str s => strEncode s
  | .bytes b => b

/-- The mutable state of the walk loop: `body_text`, `body_html`,
`attachments`. -/
structure BodyState where
  body_text : String
  body_html : String
  attachments : List Attachment
deriving DecidableEq

/-- One iteration of `for part in msg.walk()`.  Body branches assign
`get_content()` directly, so an exception there propagates (`.error`); the
attachment branch guards its `get_content()` with `try/except` and skips the
part on failure.  A `text/*` part always decodes to a `str`, so the
`.bytes` fallbacks in the body branches are unreachable and keep the state
unchanged. -/
def walkStep (st : BodyState) (p : MimePart) : Except Unit BodyState :=
  if isPlainBody p then
    match p.get_content with
    | .error e => .error e
    | .ok (.str s) => .ok ⟨s, st.body_html, st.attachments⟩
    | .ok (.bytes _) => .ok st
  else if isHtmlBody p then
    match p.get_content with
    | .error e => .error e
    | .ok (.str s) => .ok ⟨st.body_text, s, st.attachments⟩
    | .ok (.bytes _) => .ok st
  else if isAttachCand p then
    match p.filename with
    | some fn =>
      if fn == "" then .ok st
      else
        match p.get_content with
        | .error _ => .ok st
        | .ok c =>
          .ok ⟨st.body_text, st.body_html,
               st.attachments ++ [⟨fn, contentBytes c, p.content_type⟩]⟩
    | none => .ok st
  else .ok st

/-- The walk loop over a list of parts, threading state and propagating the
exceptions that escape an iteration. -/
def walkAux (st : BodyState) : List MimePart → Except Unit BodyState
  | [] => .ok st
  | p :: ps =>
    match walkStep st p with
    | .error e => .error e
    | .ok st1 => walkAux st1 ps

/-- The standard-library date machinery used by `parse_and_format_date`:
`parsedate_tz` composed with `mktime_tz` (a timestamp, or `none` when the
grammar does not parse), `datetime.fromtimestamp` (which can raise on an
out-of-range timestamp), and `strftime` rendering of the resulting local
instant. -/
structure DateBackend where
  parsedate_tz : String → Option Int
  fromtimestamp : Int → Except Unit Nat
  strftime : Nat → String

/-- `parse_and_format_date`: on a successful parse return the formatted local
time and the instant; when `parsedate_tz` yields nothing, or anything in the
`try` block raises, return the raw text and `None`.  The embedding is a total
function: the Python version never raises. -/
def parse_and_format_date (b : DateBackend) (date_string : String) : String × Option Nat :=
  match b.parsedate_tz date_string with
  | some ts =>
    match b.fromtimestamp ts with
    | .ok dt => (b.strftime dt, some dt)
    | .error _ => (date_string, none)
  | none => (date_string, none)

/-- The headers `parse_s3_eml` reads off the parsed message, plus the message
itself as the root of the part tree (`msg.walk()` starts at the message). -/
structure EmailMsg where
  subject? : Option String
  sender? : Option String
  recipient? : Option String
  date? : Option String
  root : MimePart

/-- The record `parse_s3_eml` returns on success. -/
structure EmailData where
  subject : String
  sender : String
  recipient : String
  date : String
  date_obj : Option Nat
  body_text : String
  body_html : String
  attachments : List Attachment
deriving DecidableEq

/-- `parse_s3_eml`: the argument is the outcome of
`BytesParser(policy=policy.default).parsebytes(file_content)` — `.error`
when structural decoding raises.  Any exception inside the outer `try`
(including one escaping a body-branch `get_content()`) makes the function
return `None`; otherwise headers are read with defaults, the date is
normalized, and the walk loop accumulates bodies and attachments. -/
def parse_s3_eml (b : DateBackend) (parsed : Except Unit EmailMsg) : Option EmailData :=
  match parsed with
  | .error _ => none
  | .ok msg =>
    let subject := msg.subject?.getD "No Subject"
    let sender := msg.sender?.getD "Unknown Sender"
    let recipient := msg.recipient?.getD "Unknown Recipient"
    let date_raw := msg.date?.getD "Unknown Date"
    let fd := parse_and_format_date b date_raw
    match walkAux ⟨"", "", []⟩ msg.root.walk with
    | .error _ => none
    | .ok st =>
      some ⟨subject, sender, recipient, fd.1, fd.2, st.body_text, st.body_html, st.attachments⟩

/-- `process_single_email`, with the S3 download abstracted to its outcome
(`none` models both a failed client construction and a caught `ClientError`):
a truthy (non-empty) byte string is handed to the parser, anything else
yields `None`. -/
def process_single_email (downloaded : Option Bytes)
    (parse : Bytes → Option EmailData) : Option EmailData :=
  match downloaded with
  | some c => if c.isEmpty then none else parse c
  | none => none

/-- `if len(email_data['attachments']) > max_attachments: max_attachments =
len(...)`: the running-maximum update. -/
def maxStep (m : Nat) (d : EmailData) : Nat :=
  if d.attachments.length > m then d.attachments.length else m

/-- One iteration of the `as_completed` loop of `process_emails_parallel`:
a successful result is appended and the running attachment maximum updated;
a `None` result is skipped. -/
def pipelineStep (acc : List EmailData × Nat) (r : Option EmailData) :
    List EmailData × Nat :=
  match r with
  | some d => (acc.1 ++ [d], maxStep acc.2 d)
  | none => acc

/-- `process_emails_parallel`, modelled on the list of task results in
completion order: returns `(all_emails_data, max_attachments)`. -/
def process_emails_parallel (results : List (Option EmailData)) :
    List EmailData × Nat :=
  results.foldl pipelineStep ([], 0)

/-- The progress notifications of `process_emails_parallel` over `n` tasks:
`completed` is incremented once per finished task and `(completed, total)`
is reported each time. -/
def progressEvents (n : Nat) : List (Nat × Nat) :=
  (List.range n).map (fun i => (i + 1, n))

/-- The sort key of `all_emails_data.sort(key=lambda x: x['date_obj'] if
x['date_obj'] else datetime.min, reverse=True)`: instants are `Nat` with `0`
playing `datetime.min`. -/
def sortKey (d : EmailData) : Nat :=
  match d.date_obj with
  | some t => t
  | none => 0

/-- The final sort of `main`: Python's stable sort, descending by `sortKey`
(stable: ties keep their input order).  Insertion sort with the nonstrict
descending relation computes exactly that order. -/
def sortEmailsByDate (l : List EmailData) : List EmailData :=
  List.insertionSort (fun a b => sortKey b ≤ sortKey a) l

/-- The last element of `ps` satisfying `f`, the part whose content a
repeatedly overwritten variable of the walk loop ends up holding. -/
def lastSuchPart (f : MimePart → Bool) (ps : List MimePart) : Option MimePart :=
  ps.foldl (fun acc q => if f q then some q else acc) none

/-- The attachment contributed by one walked part, if any: parts taken by a
body branch contribute nothing, otherwise an attachment-candidate part with a
truthy filename and a successfully decoded content contributes one record. -/
def attachOf (p : MimePart) : Option Attachment :=
  if isPlainBody p || isHtmlBody p then none
  else if isAttachCand p then
    match p.filename with
    | some fn =>
      if fn == "" then none
      else
        match p.get_content with
        | .error _ => none
        | .ok c => some ⟨fn, contentBytes c, p.content_type⟩
    | none => none
  else none

/-- A date backend on which every parse fails; enough for the claims that do
not depend on a successfully parsed date. -/
def noBackend : DateBackend :=
  ⟨fun _ => none, fun _ => .error (), fun _ => ""⟩

/-! ### Concrete fixtures used by counterexamples and witnesses -/

/-- A plain-text body part with ASCII content "A". -/
def partPlainA : MimePart := .mk "text/plain" "" none .usAscii [65] .nil

/-- A plain-text body part with ASCII content "B". -/
def partPlainB : MimePart := .mk "text/plain" "" none .usAscii [66] .nil

/-- A message whose walk meets two qualifying plain-text parts, "A" then
"B". -/
def msgTwoPlain : EmailMsg :=
  ⟨none, none, none, none,
   .mk "multipart/mixed" "" none .usAscii [] (.ofList [partPlainA, partPlainB])⟩

/-- The record `parse_s3_eml` produces for `msgTwoPlain`. -/
def dTwoPlain : EmailData :=
  ⟨"No Subject", "Unknown Sender", "Unknown Recipient", "Unknown Date",
   none, "B", "", []⟩

/-- A text/plain part with inline disposition and non-empty filename. -/
def partInlineNamed : MimePart :=
  .mk "text/plain" "inline" (some "x.txt") .usAscii [104, 105] .nil

/-- A message containing only `partInlineNamed`. -/
def msgInlineNamed : EmailMsg :=
  ⟨none, none, none, none,
   .mk "multipart/mixed" "" none .usAscii [] (.ofList [partInlineNamed])⟩

/-- A PDF attachment part. -/
def partPdf : MimePart :=
  .mk "application/pdf" "attachment" (some "f.pdf") .usAscii [1, 2, 3] .nil

/-- A message containing only `partPdf`, with all four headers present. -/
def msgPdf : EmailMsg :=
  ⟨some "S", some "F", some "T", some "D",
   .mk "multipart/mixed" "" none .usAscii [] (.ofList [partPdf])⟩

/-- The record `parse_s3_eml` produces for `msgPdf`. -/
def dPdf : EmailData :=
  ⟨"S", "F", "T", "D", none, "", "",
   [⟨"f.pdf", [1, 2, 3], "application/pdf"⟩]⟩

/-- A plain-text body part whose charset is unknown: its `get_content`
raises inside a body branch. -/
def partBadBody : MimePart := .mk "text/plain" "" none .unknownCs [1] .nil

/-- A message containing only `partBadBody`. -/
def msgBadBody : EmailMsg :=
  ⟨none, none, none, none,
   .mk "multipart/mixed" "" none .usAscii [] (.ofList [partBadBody])⟩

/-- A well-behaved attachment part. -/
def goodAtt : MimePart :=
  .mk "application/pdf" "attachment" (some "g.pdf") .usAscii [9] .nil

/-- An attachment-eligible text part whose unknown charset makes its
`get_content` raise. -/
def badAtt : MimePart :=
  .mk "text/csv" "attachment" (some "b.csv") .unknownCs [1, 2] .nil

/-- A binary attachment part whose payload contains a high byte. -/
def partBin : MimePart :=
  .mk "image/png" "attachment" (some "i.png") .usAscii [7, 200] .nil

/-- A message containing only `partBin`. -/
def msgBin : EmailMsg :=
  ⟨none, none, none, none,
   .mk "multipart/mixed" "" none .usAscii [] (.ofList [partBin])⟩

/-- The attachment record extracted from `partBin`. -/
def attBin : Attachment := ⟨"i.png", [7, 200], "image/png"⟩

/-- The record `parse_s3_eml` produces for `msgBin`. -/
def dBin : EmailData :=
  ⟨"No Subject", "Unknown Sender", "Unknown Recipient", "Unknown Date",
   none, "", "", [attBin]⟩

/-- A latin-1 text attachment part whose payload is the single byte 0xE9. -/
def partLatin : MimePart :=
  .mk "text/plain" "attachment" (some "a.txt") .latin1 [233] .nil

/-- A message containing only `partLatin`. -/
def msgLatin : EmailMsg :=
  ⟨none, none, none, none,
   .mk "multipart/mixed" "" none .usAscii [] (.ofList [partLatin])⟩

/-- A record with an absent sort key. -/
def eNoDate : EmailData := ⟨"s1", "f1", "r1", "d1", none, "", "", []⟩

/-- A record whose present sort key is `datetime.min` (modelled as 0). -/
def eMinDate : EmailData := ⟨"s2", "f2", "r2", "d2", some 0, "", "", []⟩

/-- A record with present sort key `t`. -/
def eT (t : Nat) : EmailData := ⟨"s", "f", "r", "d", some t, "", "", []⟩

/-- The sort example of the claim: keys T3, absent, T1, T2. -/
def lT3 : List EmailData := [eT 3, eNoDate, eT 1, eT 2]

/-- A placeholder attachment used to build records with a given attachment
count. -/
def attDummy : Attachment := ⟨"a", [], "application/octet-stream"⟩

/-- A record with `k` attachments. -/
def eWithAtts (k : Nat) : EmailData :=
  ⟨"s", "f", "r", "d", none, "", "", List.replicate k attDummy⟩

/-- Task results with attachment counts [0, 2, 5, 1]. -/
def rsCounts : List (Option EmailData) :=
  [some (eWithAtts 0), some (eWithAtts 2), some (eWithAtts 5), some (eWithAtts 1)]

/-! ### Helper lemmas about the walk loop -/

lemma foldl_lastSuch (f : MimePart → Bool) (ps : List MimePart) (a : Option MimePart) :
    ps.foldl (fun acc q => if f q then some q else acc) a
      = (lastSuchPart f ps).elim a some := by
  induction ps generalizing a with
  | nil => rfl
  | cons q ps ih =>
    show ps.foldl _ (if f q then some q else a) = (lastSuchPart f (q :: ps)).elim a some
    have hq : lastSuchPart f (q :: ps)
        = (lastSuchPart f ps).elim (if f q then some q else none) some := by
      show ps.foldl _ (if f q then some q else none) = _
      exact ih _
    rw [ih, hq]
    cases lastSuchPart f ps with
    | none => cases hfq : f q <;> simp
    | some r => simp

lemma ct_of_plain {p : MimePart} (h : isPlainBody p = true) :
    p.content_type = "text/plain" := by
  have := (Bool.and_eq_true _ _).mp h
  exact beq_iff_eq.mp this.1

lemma ct_of_html {p : MimePart} (h : isHtmlBody p = true) :
    p.content_type = "text/html" := by
  have := (Bool.and_eq_true _ _).mp h
  exact beq_iff_eq.mp this.1

lemma not_plain_of_html {p : MimePart} (h : isHtmlBody p = true) :
    isPlainBody p = false := by
  have hct := ct_of_html h
  simp [isPlainBody, hct]

lemma get_content_of_text {p : MimePart}
    (hct : p.content_type = "text/plain" ∨ p.content_type = "text/html") :
    p.get_content = (decodeCharset p.charset p.payload).map PyContent.str := by
  rcases hct with hct | hct <;> simp [MimePart.get_content, hct] <;> rfl

lemma walkStep_plain {p : MimePart} {st st1 : BodyState}
    (hp : isPlainBody p = true) (hstep : walkStep st p = .ok st1) :
    p.get_content = .ok (.str st1.body_text) ∧ st1.body_html = st.body_html ∧
      st1.attachments = st.attachments := by
  have hg := get_content_of_text (Or.inl (ct_of_plain hp))
  simp only [walkStep, hp, if_true] at hstep
  cases hdec : decodeCharset p.charset p.payload with
  | error e => rw [hg, hdec] at hstep; simp [Except.map] at hstep
  | ok s =>
    rw [hg, hdec] at hstep
    simp [Except.map] at hstep
    subst hstep
    rw [hg, hdec]
    exact ⟨rfl, rfl, rfl⟩

lemma walkStep_html {p : MimePart} {st st1 : BodyState}
    (hh : isHtmlBody p = true) (hstep : walkStep st p = .ok st1) :
    p.get_content = .ok (.str st1.body_html) ∧ st1.body_text = st.body_text ∧
      st1.attachments = st.attachments := by
  have hg := get_content_of_text (Or.inr (ct_of_html hh))
  simp only [walkStep, not_plain_of_html hh, hh, if_true, if_false] at hstep
  cases hdec : decodeCharset p.charset p.payload with
  | error e => rw [hg, hdec] at hstep; simp [Except.map] at hstep
  | ok s =>
    rw [hg, hdec] at hstep
    simp [Except.map] at hstep
    subst hstep
    rw [hg, hdec]
    exact ⟨rfl, rfl, rfl⟩

lemma attachOf_of_plain {p : MimePart} (hp : isPlainBody p = true) :
    attachOf p = none := by
  simp [attachOf, hp]

lemma attachOf_of_html {p : MimePart} (hh : isHtmlBody p = true) :
    attachOf p = none := by
  simp [attachOf, hh]

lemma walkStep_other {p : MimePart} {st st1 : BodyState}
    (hp : isPlainBody p = false) (hh : isHtmlBody p = false)
    (hstep : walkStep st p = .ok st1) :
    st1.body_text = st.body_text ∧ st1.body_html = st.body_html ∧
      st1.attachments = st.attachments ++ (attachOf p).toList := by
  simp only [walkStep, hp, hh, Bool.false_eq_true, if_false] at hstep
  simp only [attachOf, hp, hh, Bool.false_eq_true, Bool.or_self, if_false]
  by_cases hc : isAttachCand p
  · simp only [hc, if_true] at hstep ⊢
    cases hfn : p.filename with
    | none =>
      simp only [hfn] at hstep
      cases hstep
      simp
    | some fn =>
      simp only [hfn] at hstep ⊢
      by_cases hemp : fn = ""
      · subst hemp
        simp only [beq_self_eq_true, if_true] at hstep ⊢
        cases hstep
        simp
      · have hemp' : (fn == "") = false := beq_eq_false_iff_ne.mpr hemp
        simp only [hemp', Bool.false_eq_true, if_false] at hstep ⊢
        cases hg : p.get_content with
        | error e =>
          simp only [hg] at hstep ⊢
          cases hstep
          simp
        | ok c =>
          simp only [hg] at hstep ⊢
          cases hstep
          simp
  · have hc' : isAttachCand p = false := by simpa using hc
    simp only [hc', Bool.false_eq_true, if_false] at hstep ⊢
    cases hstep
    simp

lemma walkStep_bt_of_not_plain {p : MimePart} {st st1 : BodyState}
    (hp : isPlainBody p = false) (hstep : walkStep st p = .ok st1) :
    st1.body_text = st.body_text := by
  by_cases hh : isHtmlBody p
  · exact (walkStep_html hh hstep).2.1
  · exact (walkStep_other hp (by simpa using hh) hstep).1

lemma walkStep_bh_of_not_html {p : MimePart} {st st1 : BodyState}
    (hh : isHtmlBody p = false) (hstep : walkStep st p = .ok st1) :
    st1.body_html = st.body_html := by
  by_cases hp : isPlainBody p
  · exact (walkStep_plain hp hstep).2.1
  · exact (walkStep_other (by simpa using hp) hh hstep).2.1

lemma walkStep_atts {p : MimePart} {st st1 : BodyState}
    (hstep : walkStep st p = .ok st1) :
    st1.attachments = st.attachments ++ (attachOf p).toList := by
  by_cases hp : isPlainBody p
  · rw [(walkStep_plain hp hstep).2.2, attachOf_of_plain hp]; simp
  · by_cases hh : isHtmlBody p
    · rw [(walkStep_html hh hstep).2.2, attachOf_of_html hh]; simp
    · exact (walkStep_other (by simpa using hp) (by simpa using hh) hstep).2.2

lemma lastSuchPart_cons (f : MimePart → Bool) (p : MimePart) (ps : List MimePart) :
    lastSuchPart f (p :: ps)
      = (lastSuchPart f ps).elim (if f p then some p else none) some := by
  show ps.foldl _ (if f p then some p else none) = _
  exact foldl_lastSuch f ps _

/-- The loop invariant of the walk: on success, `body_text` holds the decoded
content of the last plain-body part (or its initial value when there is
none), `body_html` likewise for the last HTML-body part, and `attachments`
has grown by `attachOf` of every walked part, in order. -/
lemma walkAux_spec (ps : List MimePart) : ∀ (st0 st : BodyState),
    walkAux st0 ps = .ok st →
    ((lastSuchPart isPlainBody ps).elim (st.body_text = st0.body_text)
      (fun p => p.get_content = .ok (.str st.body_text))) ∧
    ((lastSuchPart isHtmlBody ps).elim (st.body_html = st0.body_html)
      (fun p => p.get_content = .ok (.str st.body_html))) ∧
    st.attachments = st0.attachments ++ ps.filterMap attachOf := by
  induction ps with
  | nil =>
    intro st0 st h
    rw [walkAux] at h
    cases h
    exact ⟨rfl, rfl, by simp⟩
  | cons p ps ih =>
    intro st0 st h
    rw [walkAux] at h
    cases hstep : walkStep st0 p with
    | error e => rw [hstep] at h; exact absurd h (by simp)
    | ok st1 =>
      rw [hstep] at h
      obtain ⟨ih1, ih2, ih3⟩ := ih st1 st h
      refine ⟨?_, ?_, ?_⟩
      · rw [lastSuchPart_cons]
        cases hlp : lastSuchPart isPlainBody ps with
        | some q =>
          rw [hlp] at ih1
          simpa using ih1
        | none =>
          rw [hlp] at ih1
          by_cases hp : isPlainBody p
          · simp only [hp, if_true, Option.elim]
            rw [ih1]
            exact (walkStep_plain hp hstep).1
          · have hp' : isPlainBody p = false := by simpa using hp
            simp only [hp', Bool.false_eq_true, if_false, Option.elim]
            rw [ih1, walkStep_bt_of_not_plain hp' hstep]
      · rw [lastSuchPart_cons]
        cases hlh : lastSuchPart isHtmlBody ps with
        | some q =>
          rw [hlh] at ih2
          simpa using ih2
        | none =>
          rw [hlh] at ih2
          by_cases hh : isHtmlBody p
          · simp only [hh, if_true, Option.elim]
            rw [ih2]
            exact (walkStep_html hh hstep).1
          · have hh' : isHtmlBody p = false := by simpa using hh
            simp only [hh', Bool.false_eq_true, if_false, Option.elim]
            rw [ih2, walkStep_bh_of_not_html hh' hstep]
      · rw [ih3, walkStep_atts hstep, List.filterMap_cons]
        cases ha : attachOf p <;> simp

/-- Unfolding `parse_s3_eml` on a successfully decoded message. -/
lemma parse_s3_eml_ok {b : DateBackend} {msg : EmailMsg} {d : EmailData}
    (h : parse_s3_eml b (.ok msg) = some d) :
    ∃ st, walkAux ⟨"", "", []⟩ msg.root.walk = .ok st ∧
      d.body_text = st.body_text ∧ d.body_html = st.body_html ∧
      d.attachments = st.attachments := by
  rw [parse_s3_eml] at h
  cases hw : walkAux ⟨"", "", []⟩ msg.root.walk with
  | error e => rw [hw] at h; exact absurd h (by simp)
  | ok st =>
    rw [hw] at h
    simp only [Option.some.injEq] at h
    exact ⟨st, rfl, by rw [← h], by rw [← h], by rw [← h]⟩

/-! ### Claim C1 -/

/-- C1, counterexample: `msgTwoPlain` has two qualifying plain-text parts in
document order, the first decoding to "A"; the parser nevertheless returns
`body_text = "B"`, so the first encountered part does not win. -/
theorem c1_counterexample :
    (msgTwoPlain.root.walk.filter isPlainBody).head? = some partPlainA ∧
    partPlainA.get_content = .ok (.str "A") ∧
    (parse_s3_eml noBackend (.ok msgTwoPlain)).map EmailData.body_text = some "B" ∧
    "B" ≠ "A" :=
  ⟨rfl, rfl, rfl, by decide⟩

/-- C1 (amended): the walk loop overwrites `body_text` on every qualifying
text/plain part, so the LAST such part in document order wins (and likewise
`body_html` for text/html); a message with no qualifying part leaves the
field empty, and a message with exactly one qualifying plain part and one
qualifying HTML part gets both fields set to those parts' decoded
contents. -/
theorem c1_amended (b : DateBackend) (msg : EmailMsg) (d : EmailData)
    (h : parse_s3_eml b (.ok msg) = some d) :
    ((lastSuchPart isPlainBody msg.root.walk).elim (d.body_text = "")
      (fun p => p.get_content = .ok (.str d.body_text))) ∧
    ((lastSuchPart isHtmlBody msg.root.walk).elim (d.body_html = "")
      (fun p => p.get_content = .ok (.str d.body_html))) := by
  obtain ⟨st, hw, hbt, hbh, _⟩ := parse_s3_eml_ok h
  obtain ⟨h1, h2, _⟩ := walkAux_spec _ _ _ hw
  constructor
  · rw [hbt]; exact h1
  · rw [hbh]; exact h2

/-- Witness for `c1_amended` at the concrete message `msgTwoPlain`: the last
qualifying plain part's decoded content is the returned `body_text`. -/
theorem c1_amended_witness :
    parse_s3_eml noBackend (.ok msgTwoPlain) = some dTwoPlain ∧
    ((lastSuchPart isPlainBody msgTwoPlain.root.walk).elim (dTwoPlain.body_text = "")
      (fun p => p.get_content = .ok (.str dTwoPlain.body_text))) :=
  ⟨rfl, (c1_amended noBackend msgTwoPlain dTwoPlain rfl).1⟩

/-! ### Claim C2 -/

/-- C2, counterexample: `partInlineNamed` carries the non-empty filename
"x.txt" and no attachment disposition, but being text/plain it is consumed
by the body branch — the parser appends no attachment for it, refuting
"regardless of the part's media type". -/
theorem c2_counterexample :
    pyTruthyFilename partInlineNamed.filename = true ∧
    substrIn "attachment" partInlineNamed.content_disposition = false ∧
    (parse_s3_eml noBackend (.ok msgInlineNamed)).map EmailData.attachments = some [] ∧
    (parse_s3_eml noBackend (.ok msgInlineNamed)).map EmailData.body_text = some "hi" :=
  ⟨rfl, rfl, rfl, rfl⟩

/-- C2 (amended): the attachment branch is an `elif`, so it receives only
parts NOT consumed as text/plain or text/html bodies; among those, each part
with attachment disposition or truthy filename, a non-empty filename and a
successfully decoded content appends exactly one Attachment (text re-encoded
to bytes), in document order — `attachOf` is that per-part contribution. -/
theorem c2_amended (b : DateBackend) (msg : EmailMsg) (d : EmailData)
    (h : parse_s3_eml b (.ok msg) = some d) :
    d.attachments = msg.root.walk.filterMap attachOf := by
  obtain ⟨st, hw, _, _, hatts⟩ := parse_s3_eml_ok h
  obtain ⟨_, _, h3⟩ := walkAux_spec _ _ _ hw
  rw [hatts, h3]
  simp

/-- Witness for `c2_amended` at the concrete message `msgPdf`. -/
theorem c2_amended_witness :
    parse_s3_eml noBackend (.ok msgPdf) = some dPdf ∧
    dPdf.attachments = msgPdf.root.walk.filterMap attachOf :=
  ⟨rfl, c2_amended noBackend msgPdf dPdf rfl⟩

/-! ### Claim C4 -/

/-- C4: whenever the date grammar does not parse (`parsedate_tz` yields
nothing) or the conversion raises (`fromtimestamp` fails), the normalizer
returns the raw text unchanged with an absent sort key; being a total Lean
function, it never raises. -/
theorem c4_date_failure (b : DateBackend) (s : String)
    (h : b.parsedate_tz s = none ∨
      ∃ ts, b.parsedate_tz s = some ts ∧ b.fromtimestamp ts = .error ()) :
    parse_and_format_date b s = (s, none) := by
  rcases h with h | ⟨ts, h1, h2⟩
  · simp [parse_and_format_date, h]
  · simp [parse_and_format_date, h1, h2]

/-- Witness for `c4_date_failure`: normalizing "not-a-date" yields the raw
text and an absent key. -/
theorem c4_witness :
    parse_and_format_date noBackend "not-a-date" = ("not-a-date", none) :=
  c4_date_failure noBackend "not-a-date" (Or.inl rfl)

/-! ### Claim C5 -/

/-- C5: when structural MIME decoding raises, `parse_s3_eml` returns `none`
— no partial record exists — and likewise when an exception escapes the
walk itself (a body part whose decode raises propagates to the outer
handler). -/
theorem c5_parse_failure :
    (∀ b : DateBackend, parse_s3_eml b (.error ()) = none) ∧
    (∀ (b : DateBackend) (msg : EmailMsg),
      walkAux ⟨"", "", []⟩ msg.root.walk = .error () →
      parse_s3_eml b (.ok msg) = none) := by
  refine ⟨fun b => rfl, fun b msg hw => ?_⟩
  rw [parse_s3_eml, hw]

/-- Witness for `c5_parse_failure`: a message whose only body part has an
undecodable charset parses to `none`. -/
theorem c5_witness : parse_s3_eml noBackend (.ok msgBadBody) = none :=
  c5_parse_failure.2 noBackend msgBadBody rfl

/-! ### Claim C10 -/

/-- C10: a fetch that succeeds but returns zero bytes produces no result,
identically to a failed fetch, and the parser is never consulted (the
outcome does not depend on `parse`). -/
theorem c10_empty_download (parse : Bytes → Option EmailData) :
    process_single_email (some []) parse = none ∧
    process_single_email none parse = none ∧
    process_single_email (some []) parse = process_single_email none parse :=
  ⟨rfl, rfl, rfl⟩

/-! ### Claim C3 -/

lemma sortKey_of_some {d : EmailData} {t : Nat} (h : d.date_obj = some t) :
    sortKey d = t := by
  simp [sortKey, h]

lemma sortKey_of_none {d : EmailData} (h : d.date_obj = none) :
    sortKey d = 0 := by
  simp [sortKey, h]

/-- The output of the final sort is descending in `sortKey`. -/
lemma sortEmails_sorted (l : List EmailData) :
    List.Pairwise (fun a b => sortKey b ≤ sortKey a) (sortEmailsByDate l) := by
  haveI : IsTotal EmailData (fun a b => sortKey b ≤ sortKey a) :=
    ⟨fun a b => (Nat.le_total (sortKey a) (sortKey b)).symm⟩
  haveI : IsTrans EmailData (fun a b => sortKey b ≤ sortKey a) :=
    ⟨fun a b c h1 h2 => Nat.le_trans h2 h1⟩
  exact List.sorted_insertionSort _ l

/-- C3, counterexample: a record whose present sort key equals
`datetime.min` ties with an absent-key record; the stable sort keeps the
input order, leaving the absent-key record BEFORE a present-key one. -/
theorem c3_counterexample :
    sortEmailsByDate [eNoDate, eMinDate] = [eNoDate, eMinDate] ∧
    eNoDate.date_obj = none ∧ eMinDate.date_obj = some 0 :=
  ⟨rfl, rfl, rfl⟩

/-- C3 (amended): the sort maps an absent key to `datetime.min` (modelled
as 0) and sorts descending and stably by that key; consequently every record
whose present key is strictly greater than `datetime.min` precedes every
absent-key record, and for `datetime.min < T1 < T2 < T3` the input
[T3, absent, T1, T2] sorts to [T3, T2, T1, absent].  A present key equal to
`datetime.min` ties with absent keys, in which case input order is kept. -/
theorem c3_amended (l : List EmailData) :
    List.Pairwise (fun a b => sortKey b ≤ sortKey a) (sortEmailsByDate l) ∧
    (∀ (i j : Fin (sortEmailsByDate l).length) (t : Nat),
      ((sortEmailsByDate l).get i).date_obj = none →
      ((sortEmailsByDate l).get j).date_obj = some t →
      0 < t → j < i) := by
  refine ⟨sortEmails_sorted l, ?_⟩
  intro i j t hi hj ht
  rcases lt_trichotomy i j with hij | hij | hij
  · exfalso
    have hrel := List.pairwise_iff_get.mp (sortEmails_sorted l) i j hij
    rw [sortKey_of_some hj, sortKey_of_none hi] at hrel
    omega
  · exfalso
    subst hij
    rw [hi] at hj
    cases hj
  · exact hij

/-- Witness for `c3_amended`: the claim's example with positive keys, and
the positional consequence at concrete indices (the absent-key record sits
at index 3, after the present-key record at index 0). -/
theorem c3_amended_witness :
    sortEmailsByDate lT3 = [eT 3, eT 2, eT 1, eNoDate] ∧
    (⟨0, by decide⟩ : Fin (sortEmailsByDate lT3).length) < ⟨3, by decide⟩ :=
  ⟨rfl, (c3_amended lT3).2 ⟨3, by decide⟩ ⟨0, by decide⟩ 3 rfl rfl (by decide)⟩

/-! ### Claim C7 -/

/-- The fold of the pipeline loop, split into its two components. -/
lemma pipeline_foldl (results : List (Option EmailData)) :
    ∀ acc : List EmailData × Nat,
    results.foldl pipelineStep acc
      = (acc.1 ++ results.filterMap id, (results.filterMap id).foldl maxStep acc.2) := by
  induction results with
  | nil => intro acc; simp
  | cons r rs ih =>
    intro acc
    cases r with
    | none => simpa [pipelineStep] using ih acc
    | some d =>
      have := ih (acc.1 ++ [d], maxStep acc.2 d)
      simpa [pipelineStep, List.filterMap_cons] using this

lemma le_foldl_maxStep (xs : List EmailData) : ∀ m0 : Nat,
    m0 ≤ xs.foldl maxStep m0 := by
  induction xs with
  | nil => intro m0; exact Nat.le_refl _
  | cons d xs ih =>
    intro m0
    refine Nat.le_trans ?_ (ih (maxStep m0 d))
    unfold maxStep
    split <;> omega

lemma mem_le_foldl_maxStep (xs : List EmailData) : ∀ (m0 : Nat) (d : EmailData),
    d ∈ xs → d.attachments.length ≤ xs.foldl maxStep m0 := by
  induction xs with
  | nil => intro m0 d hd; cases hd
  | cons e xs ih =>
    intro m0 d hd
    rcases List.mem_cons.mp hd with rfl | hd
    · refine Nat.le_trans ?_ (le_foldl_maxStep xs (maxStep m0 d))
      unfold maxStep
      split <;> omega
    · exact ih _ d hd

lemma foldl_maxStep_attained (xs : List EmailData) : ∀ m0 : Nat,
    xs.foldl maxStep m0 = m0 ∨
      ∃ d ∈ xs, d.attachments.length = xs.foldl maxStep m0 := by
  induction xs with
  | nil => intro m0; exact Or.inl rfl
  | cons e xs ih =>
    intro m0
    rcases ih (maxStep m0 e) with heq | ⟨d, hd, heq⟩
    · by_cases hgt : e.attachments.length > m0
      · refine Or.inr ⟨e, List.mem_cons_self e xs, ?_⟩
        rw [List.foldl_cons, heq]
        unfold maxStep
        rw [if_pos hgt]
      · refine Or.inl ?_
        rw [List.foldl_cons, heq]
        unfold maxStep
        rw [if_neg hgt]
    · exact Or.inr ⟨d, List.mem_cons_of_mem e hd, heq⟩

/-- C7: the pipeline returns exactly the successful results, and its second
component is the maximum attachment count over them: an upper bound on every
success, zero on an empty success set, and attained by some success
otherwise. -/
theorem c7_max_attachments (results : List (Option EmailData)) :
    ((process_emails_parallel results).1 = results.filterMap id) ∧
    (results.filterMap id = [] → (process_emails_parallel results).2 = 0) ∧
    (∀ d ∈ results.filterMap id,
      d.attachments.length ≤ (process_emails_parallel results).2) ∧
    (results.filterMap id ≠ [] →
      ∃ d ∈ results.filterMap id,
        d.attachments.length = (process_emails_parallel results).2) := by
  have hp : process_emails_parallel results
      = (results.filterMap id, (results.filterMap id).foldl maxStep 0) := by
    rw [process_emails_parallel]
    exact pipeline_foldl results ([], 0)
  rw [hp]
  refine ⟨rfl, ?_, ?_, ?_⟩
  · intro hemp; rw [hemp]; rfl
  · intro d hd
    exact mem_le_foldl_maxStep _ 0 d hd
  · intro hne
    rcases foldl_maxStep_attained (results.filterMap id) 0 with heq | ⟨d, hd, heq⟩
    · obtain ⟨d, hd⟩ := List.exists_mem_of_ne_nil _ hne
      refine ⟨d, hd, ?_⟩
      have h1 := mem_le_foldl_maxStep (results.filterMap id) 0 d hd
      omega
    · exact ⟨d, hd, heq⟩

/-- Witness for `c7_max_attachments`: over results with attachment counts
[0, 2, 5, 1] the maximum is 5 and is attained; over no results it is 0. -/
theorem c7_witness :
    (process_emails_parallel rsCounts).2 = 5 ∧
    (∃ d ∈ rsCounts.filterMap id,
      d.attachments.length = (process_emails_parallel rsCounts).2) ∧
    (process_emails_parallel []).2 = 0 :=
  ⟨rfl, (c7_max_attachments rsCounts).2.2.2 (by decide), rfl⟩

/-! ### Claim C8 -/

/-- C8: over `n` tasks the progress channel gets exactly `n` notifications,
strictly increasing in completed count, each with total `n`, the last being
`(n, n)`. -/
theorem c8_progress (n : Nat) :
    (progressEvents n).length = n ∧
    List.Pairwise (fun p q : Nat × Nat => p.1 < q.1) (progressEvents n) ∧
    (∀ p ∈ progressEvents n, p.2 = n) ∧
    (0 < n → (progressEvents n).getLast? = some (n, n)) := by
  refine ⟨by simp [progressEvents], ?_, ?_, ?_⟩
  · rw [progressEvents, List.pairwise_map]
    exact (List.pairwise_lt_range n).imp (by omega)
  · intro p hp
    rw [progressEvents] at hp
    obtain ⟨i, _, rfl⟩ := List.mem_map.mp hp
    rfl
  · intro hn
    obtain ⟨m, rfl⟩ : ∃ m, n = m + 1 := ⟨n - 1, by omega⟩
    rw [progressEvents, List.range_succ, List.map_append]
    simp

/-- Witness for `c8_progress` at `n = 3`: three notifications ending in
`(3, 3)`. -/
theorem c8_witness :
    (progressEvents 3).getLast? = some (3, 3) ∧ (progressEvents 3).length = 3 :=
  ⟨(c8_progress 3).2.2.2 (by decide), (c8_progress 3).1⟩

/-! ### Claim C6 -/

lemma walkF_ofList_cons (p : MimePart) (l : List MimePart) :
    MimeForest.walkF (.ofList (p :: l)) = p.walk ++ MimeForest.walkF (.ofList l) := rfl

lemma walkF_ofList_append (l1 l2 : List MimePart) :
    MimeForest.walkF (.ofList (l1 ++ l2))
      = MimeForest.walkF (.ofList l1) ++ MimeForest.walkF (.ofList l2) := by
  induction l1 with
  | nil => rfl
  | cons p ps ih =>
    rw [List.cons_append, walkF_ofList_cons, walkF_ofList_cons, ih, List.append_assoc]

lemma walkAux_append (l1 l2 : List MimePart) : ∀ st : BodyState,
    walkAux st (l1 ++ l2)
      = match walkAux st l1 with
        | .error e => .error e
        | .ok st1 => walkAux st1 l2 := by
  induction l1 with
  | nil => intro st; rfl
  | cons p ps ih =>
    intro st
    rw [List.cons_append, walkAux, walkAux]
    cases hstep : walkStep st p with
    | error e => rfl
    | ok st1 => exact ih st1

/-- A part that is neither body branch and whose `get_content` raises moves
the loop state nowhere: the `except` swallows the failure. -/
lemma walkStep_skipped {bad : MimePart} (st : BodyState)
    (hp : isPlainBody bad = false) (hh : isHtmlBody bad = false)
    (hg : bad.get_content = .error ()) :
    walkStep st bad = .ok st := by
  simp only [walkStep, hp, hh, Bool.false_eq_true, if_false]
  by_cases hc : isAttachCand bad
  · simp only [hc, if_true]
    cases hfn : bad.filename with
    | none => rfl
    | some fn =>
      by_cases hemp : fn = ""
      · subst hemp; simp
      · simp [beq_eq_false_iff_ne.mpr hemp, hg]
  · have hc' : isAttachCand bad = false := by simpa using hc
    simp [hc']

lemma walkAux_skip (A B : List MimePart) {bad : MimePart}
    (hp : isPlainBody bad = false) (hh : isHtmlBody bad = false)
    (hg : bad.get_content = .error ()) (st : BodyState) :
    walkAux st (A ++ bad :: B) = walkAux st (A ++ B) := by
  rw [walkAux_append, walkAux_append]
  cases walkAux st A with
  | error e => rfl
  | ok st1 =>
    show walkAux st1 (bad :: B) = walkAux st1 B
    rw [walkAux, walkStep_skipped st1 hp hh hg]

/-- The walk-loop body never looks at a part's subparts. -/
lemma walkStep_subparts_irrel (st : BodyState) (ct cd : String)
    (fn : Option String) (cs : Charset) (pl : Bytes) (subs subs' : MimeForest) :
    walkStep st (.mk ct cd fn cs pl subs) = walkStep st (.mk ct cd fn cs pl subs') := rfl

/-- C6: a failing attachment-eligible leaf among the root's children is
skipped silently: the message parses to exactly the same result as the same
message without that part, so one attachment decode failure neither aborts
the walk nor changes any other extracted field. -/
theorem c6_attachment_failure_localized (b : DateBackend)
    (s? f? t? d? : Option String) (ct cd : String) (fn : Option String)
    (cs : Charset) (pl : Bytes) (c1 c2 : List MimePart) (bad : MimePart)
    (hleaf : bad.subparts = .nil)
    (hp : isPlainBody bad = false) (hh : isHtmlBody bad = false)
    (hc : isAttachCand bad = true)
    (hg : bad.get_content = .error ()) :
    parse_s3_eml b (.ok ⟨s?, f?, t?, d?,
        .mk ct cd fn cs pl (.ofList (c1 ++ bad :: c2))⟩) =
    parse_s3_eml b (.ok ⟨s?, f?, t?, d?,
        .mk ct cd fn cs pl (.ofList (c1 ++ c2))⟩) := by
  have hwalkbad : bad.walk = [bad] := by
    cases bad with
    | mk bct bcd bfn bcs bpl bsubs =>
      simp only [MimePart.subparts] at hleaf
      subst hleaf
      rfl
  have hwa : walkAux ⟨"", "", []⟩
        ((MimePart.mk ct cd fn cs pl (.ofList (c1 ++ bad :: c2))).walk)
      = walkAux ⟨"", "", []⟩
        ((MimePart.mk ct cd fn cs pl (.ofList (c1 ++ c2))).walk) := by
    rw [MimePart.walk, MimePart.walk, walkAux, walkAux,
      walkStep_subparts_irrel _ ct cd fn cs pl (.ofList (c1 ++ bad :: c2)) (.ofList (c1 ++ c2))]
    cases walkStep ⟨"", "", []⟩ (.mk ct cd fn cs pl (.ofList (c1 ++ c2))) with
    | error e => rfl
    | ok st1 =>
      rw [walkF_ofList_append, walkF_ofList_append, walkF_ofList_cons, hwalkbad]
      show walkAux st1 (MimeForest.walkF (.ofList c1)
          ++ (bad :: MimeForest.walkF (.ofList c2))) = _
      exact walkAux_skip _ _ hp hh hg st1
  simp only [parse_s3_eml]
  rw [hwa]

/-- Witness for `c6_attachment_failure_localized`: a message holding one good
attachment and one undecodable attachment parses exactly like the message
without the bad part, and still yields the good attachment. -/
theorem c6_witness :
    parse_s3_eml noBackend (.ok ⟨none, none, none, none,
        .mk "multipart/mixed" "" none .usAscii [] (.ofList ([goodAtt] ++ badAtt :: []))⟩) =
      parse_s3_eml noBackend (.ok ⟨none, none, none, none,
        .mk "multipart/mixed" "" none .usAscii [] (.ofList ([goodAtt] ++ []))⟩) ∧
    (parse_s3_eml noBackend (.ok ⟨none, none, none, none,
        .mk "multipart/mixed" "" none .usAscii [] (.ofList ([goodAtt] ++ []))⟩)).map
        EmailData.attachments = some [⟨"g.pdf", [9], "application/pdf"⟩] :=
  ⟨c6_attachment_failure_localized noBackend none none none none
    "multipart/mixed" "" none .usAscii [] [goodAtt] [] badAtt rfl rfl rfl rfl rfl,
   rfl⟩

/-! ### Claim C9 -/

lemma char_toNat_ofNat_lt {b : Nat} (hb : b < 128) : (Char.ofNat b).toNat = b := by
  have hv : b.isValidChar := Or.inl (by omega)
  rw [Char.ofNat, dif_pos hv]
  rfl

lemma utf8Encode_ascii {b : Nat} (hb : b < 128) :
    utf8Encode (Char.ofNat b) = [b] := by
  simp only [utf8Encode, char_toNat_ofNat_lt hb]
  rw [if_pos (by omega : b < 0x80)]

/-- ASCII decoding then UTF-8 re-encoding is the identity on ASCII byte
strings. -/
lemma asciiDecode_encode (bs : Bytes) (h : ∀ x ∈ bs, x < 128) :
    strEncode ⟨bs.map (fun b => if b < 128 then Char.ofNat b else replacementChar)⟩ = bs := by
  induction bs with
  | nil => rfl
  | cons x xs ih =>
    have hx : x < 128 := h x (List.mem_cons_self x xs)
    have hxs : ∀ y ∈ xs, y < 128 := fun y hy => h y (List.mem_cons_of_mem x hy)
    show utf8Encode (if x < 128 then Char.ofNat x else replacementChar)
        ++ strEncode ⟨xs.map (fun b => if b < 128 then Char.ofNat b else replacementChar)⟩
        = x :: xs
    rw [if_pos hx, utf8Encode_ascii hx, ih hxs]
    rfl

/-- Every appended attachment stores `contentBytes` of what `get_content`
returned. -/
lemma attachOf_content {p : MimePart} {a : Attachment} (ha : attachOf p = some a) :
    ∃ c, p.get_content = .ok c ∧ a.content = contentBytes c := by
  unfold attachOf at ha
  by_cases h1 : (isPlainBody p || isHtmlBody p) = true
  · rw [if_pos h1] at ha; cases ha
  · rw [if_neg h1] at ha
    by_cases hc : isAttachCand p = true
    · rw [if_pos hc] at ha
      cases hfn : p.filename with
      | none => simp only [hfn] at ha; cases ha
      | some fn =>
        simp only [hfn] at ha
        by_cases hemp : (fn == "") = true
        · rw [if_pos hemp] at ha; cases ha
        · rw [if_neg hemp] at ha
          cases hg : p.get_content with
          | error e => simp only [hg] at ha; cases ha
          | ok c =>
            simp only [hg] at ha
            refine ⟨c, rfl, ?_⟩
            cases ha
            rfl
    · rw [if_neg hc] at ha; cases ha

/-- C9, counterexample: a latin-1 text attachment whose payload is the byte
0xE9 is decoded to "é" and re-encoded to UTF-8 [0xC3, 0xA9]: the stored
content is not byte-identical to the part's payload. -/
theorem c9_counterexample :
    (parse_s3_eml noBackend (.ok msgLatin)).map EmailData.attachments
      = some [⟨"a.txt", [195, 169], "text/plain"⟩] ∧
    partLatin.payload = [233] ∧
    ([195, 169] : Bytes) ≠ [233] :=
  ⟨rfl, rfl, by decide⟩

/-- C9 (amended): every extracted attachment is present in the result, its
content is byte-identical to the part's payload whenever `get_content`
yielded bytes (every non-text part), and likewise for text parts whose
payload is pure ASCII; for other text charsets the stored UTF-8 re-encoding
can differ from the payload. -/
theorem c9_amended (b : DateBackend) (msg : EmailMsg) (d : EmailData)
    (h : parse_s3_eml b (.ok msg) = some d) :
    ∀ p ∈ msg.root.walk, ∀ a : Attachment, attachOf p = some a →
      a ∈ d.attachments ∧
      (p.get_content = .ok (.bytes p.payload) → a.content = p.payload) ∧
      (p.charset = Charset.usAscii → (∀ x ∈ p.payload, x < 128) →
        a.content = p.payload) := by
  intro p hp a ha
  obtain ⟨st, hw, _, _, hatts⟩ := parse_s3_eml_ok h
  obtain ⟨_, _, h3⟩ := walkAux_spec _ _ _ hw
  have hmem : a ∈ d.attachments := by
    rw [hatts, h3]
    exact List.mem_append_right _ (List.mem_filterMap.mpr ⟨p, hp, ha⟩)
  obtain ⟨c, hg, hca⟩ := attachOf_content ha
  refine ⟨hmem, ?_, ?_⟩
  · intro hbytes
    rw [hg] at hbytes
    injection hbytes with hcb
    rw [hca, hcb]
    rfl
  · intro hcs hall
    by_cases hm : strStartsWith p.content_type "multipart/" = true
    · rw [MimePart.get_content, if_pos hm] at hg
      cases hg
    · by_cases ht : strStartsWith p.content_type "text/" = true
      · rw [MimePart.get_content, if_neg hm, if_pos ht, hcs] at hg
        simp only [decodeCharset, Except.map] at hg
        injection hg with hcb
        rw [hca, ← hcb]
        exact asciiDecode_encode p.payload hall
      · rw [MimePart.get_content, if_neg hm, if_neg ht] at hg
        injection hg with hcb
        rw [hca, ← hcb]
        rfl

/-- Witness for `c9_amended`: the binary attachment of `msgBin` is stored
byte-identically to its payload. -/
theorem c9_witness :
    parse_s3_eml noBackend (.ok msgBin) = some dBin ∧
    attBin ∈ dBin.attachments ∧
    attBin.content = partBin.payload :=
  ⟨rfl,
   (c9_amended noBackend msgBin dBin rfl partBin
     (List.mem_cons_of_mem _ (List.mem_cons_self _ _)) attBin rfl).1,
   (c9_amended noBackend msgBin dBin rfl partBin
     (List.mem_cons_of_mem _ (List.mem_cons_self _ _)) attBin rfl).2.1 rfl⟩
